import Mathlib

/-!
Verification of `git-search`, a command-line client that turns filter options
into a GitHub repository-search query string and renders the decoded results.

The single Go source file (`main.go`) is embedded shallowly:

* `Options` mirrors the `options` struct, with the defaults declared by the
  flag tags (`Forks` defaults to `-1`; `Size` and `Stars` default to the Go
  zero value `0`; strings default to `""`, booleans to `false`).
* `vals` mirrors the map-building first half of `options.queryString`.  The
  Go map is embedded as an association list built by the same sequence of
  conditional insertions; since Go map iteration order is unspecified, every
  theorem about the rendered query quantifies over an arbitrary permutation
  `l` of `vals o` and feeds it to `queryStringList`, the transcription of the
  buffer-writing second half of `queryString`.
* `exec` mirrors the top-level `exec` function, with the three external
  effects (flag parsing, the HTTP GET, the JSON decode) abstracted as oracle
  arguments; its result records the exit code, the rendered stdout rows and
  the stderr diagnostic lines.
* `bodyEvents` records the acquire/close events on the HTTP response body
  stream along each path of `exec` after a successful GET; a `closeBody`
  event would correspond to a `res.Body.Close()` call in the source, of
  which there are none.
-/

namespace GitSearch

/-- The `options` struct of `main.go`.  `Keyword` flattens the positional
`PosArgs.Keyword` field, and `SortField` stands for the Go field `Sort`
(`Sort` is a Lean keyword).  Field defaults are the values the go-flags
parser leaves in place when a flag is not supplied. -/
structure Options where
  GitHubAPIURI : String := "https://api.github.com/search"
  Created : String := ""
  Pushed : String := ""
  Fork : String := ""
  Forks : Int := -1
  InName : Bool := false
  InDescription : Bool := false
  InReadme : Bool := false
  Language : String := ""
  License : String := ""
  Org : String := ""
  Username : String := ""
  Size : Int := 0
  Stars : Int := 0
  Topic : String := ""
  Archived : Bool := false
  SortField : String := ""
  Order : String := ""
  Keyword : String := ""

/-- Go `shortenLanguage`: display shortening of a language name. -/
def shortenLanguage (lang : String) : String :=
  match lang with
  | "Emacs Lisp" => "elisp"
  | "JavaScript" => "JS"
  | "CoffeeScript" => "Coffee"
  | _ => lang

/-- One element of the decoded `items` array of the `response` struct. -/
structure Item where
  license : String
  language : String
  full_name : String
  description : String

/-- The decoded `response` struct: a single `items` field. -/
structure Response where
  items : List Item

/-- Outcome of `flags.Parse`: parsed options, the help pseudo-error
(`flags.ErrHelp`), or a parse failure carrying its message. -/
inductive ParseResult where
  | ok (opts : Options)
  | helpRequested
  | failed (msg : String)

/-- Outcome of the `http.Get` call (the transport is external). -/
inductive FetchResult where
  | ok
  | failed (msg : String)

/-- Outcome of `json.NewDecoder(res.Body).Decode` (the decoder is external). -/
inductive DecodeResult where
  | ok (r : Response)
  | failed (msg : String)

/-- What a run of `exec` produces: the process exit code, the result rows
written to stdout (one string per line, after the tabwriter flush), and the
diagnostic lines written to stderr. -/
structure ExecOutcome where
  exitCode : Nat
  stdoutRows : List String
  stderrLines : List String

/-- Go `printErr`: formats one diagnostic line `msg: err` for stderr. -/
def printErr (msg err : String) : String := msg ++ ": " ++ err

/-- The body of the render loop of `exec`: one output line per item.  When no
language filter was supplied the line is prefixed with `[%s]\t` applied to the
shortened language; the rest is `full_name + "\t" + description`. -/
def rowLine (opts : Options) (item : Item) : String :=
  (if opts.Language = "" then "[" ++ shortenLanguage item.language ++ "]\t" else "")
    ++ item.full_name ++ "\t" ++ item.description

/-- The render loop of `exec` over the decoded items. -/
def renderRows (opts : Options) (r : Response) : List String :=
  r.items.map (rowLine opts)

/-- Go `exec`, with the three external effects supplied as oracles.  Mirrors
the control flow of `main.go` lines 50-79: help returns 0; a parse, transport
or decode failure prints one diagnostic via `printErr` and returns 1; success
renders the rows and returns 0. -/
def exec (pr : ParseResult) (fr : FetchResult) (dr : DecodeResult) : ExecOutcome :=
  match pr with
  | .helpRequested => ⟨0, [], []⟩
  | .failed e => ⟨1, [], [printErr "error in parsing options" e]⟩
  | .ok opts =>
    match fr with
    | .failed e => ⟨1, [], [printErr "error in requesting" e]⟩
    | .ok =>
      match dr with
      | .failed e => ⟨1, [], [printErr "error in parsing reponse" e]⟩
      | .ok r => ⟨0, renderRows opts r, []⟩

/-- Acquire/close events on the HTTP response body stream along each path of
`exec`.  After a successful `http.Get` the body is acquired; a `closeBody`
event is recorded at each `res.Body.Close()` call site of the source — the
source contains none, on neither the success nor the decode-failure path. -/
inductive ResourceEvent where
  | acquireBody
  | closeBody
deriving DecidableEq

/-- The response-body event trace of `exec` (transcribed from the source:
no path ever emits `closeBody` because `exec` never calls `Close`). -/
def bodyEvents (fr : FetchResult) (dr : DecodeResult) : List ResourceEvent :=
  match fr with
  | .failed _ => []
  | .ok =>
    match dr with
    | .failed _ => [.acquireBody]
    | .ok _ => [.acquireBody]

/-- Replace the value stored under key `"in"` (first occurrence) with `v`,
keeping everything else; the embedding of the Go map update `vals["in"] = v`
restricted to the one key the source updates in place. -/
def replaceIn : List (String × String) → String → List (String × String)
  | [], _ => []
  | (k, w) :: rest, v => if k = "in" then (k, v) :: rest else (k, w) :: replaceIn rest v

/-- The Go idiom `if old, ok := vals["in"]; ok { vals["in"] = old + "," + v }
else { vals["in"] = v }` on the association-list embedding of the map. -/
def setIn (l : List (String × String)) (v : String) : List (String × String) :=
  match l.lookup "in" with
  | some old => replaceIn l (old ++ "," ++ v)
  | none => l ++ [("in", v)]

/-- The three `in`-flag statements of `queryString` (`main.go` lines 112-128):
`InName` inserts `in ↦ name`; `InDescription` and `InReadme` append to the
existing `in` entry or insert a fresh one. -/
def inBlock (nameF descF readmeF : Bool) (l : List (String × String)) :
    List (String × String) :=
  let l := if nameF then l ++ [("in", "name")] else l
  let l := if descF then setIn l "description" else l
  let l := if readmeF then setIn l "readme" else l
  l

/-- The map-building first half of `options.queryString` (`main.go` lines
99-152), as an association list built by the same sequence of conditional
insertions. -/
def vals (o : Options) : List (String × String) :=
  let l : List (String × String) := []
  let l := if o.Created ≠ "" then l ++ [("created", o.Created)] else l
  let l := if o.Pushed ≠ "" then l ++ [("pushed", o.Pushed)] else l
  let l := if o.Fork ≠ "" then l ++ [("fork", o.Fork)] else l
  let l := if o.Forks ≥ 0 then l ++ [("forks", toString o.Forks)] else l
  let l := inBlock o.InName o.InDescription o.InReadme l
  let l := if o.Language ≠ "" then l ++ [("language", o.Language)] else l
  let l := if o.License ≠ "" then l ++ [("license", o.License)] else l
  let l := if o.Org ≠ "" then l ++ [("org", o.Org)] else l
  let l := if o.Username ≠ "" then l ++ [("user", o.Username)] else l
  let l := if o.Size > 0 then l ++ [("size", toString o.Size)] else l
  let l := if o.Stars > 0 then l ++ [("stars", toString o.Stars)] else l
  let l := if o.Topic ≠ "" then l ++ [("topic", o.Topic)] else l
  let l := if o.Archived then l ++ [("archived", "true")] else l
  l

/-- The term-writing loop of `queryString` (`main.go` lines 162-168): each
entry is written as `k:v`, preceded by `+` unless it is the first thing after
`q=`/the keyword. -/
def loopTerms : List (String × String) → String → Bool → String
  | [], buf, _ => buf
  | (k, v) :: rest, buf, isFirst =>
      loopTerms rest ((if isFirst then buf else buf ++ "+") ++ (k ++ ":" ++ v)) false

/-- The buffer-writing second half of `options.queryString` (`main.go` lines
153-178), parameterised by the iteration order `l` of the Go map (`vals o` in
some order). -/
def queryStringList (o : Options) (l : List (String × String)) : String :=
  let buf : String := ""
  let buf := if o.Keyword ≠ "" ∨ l ≠ [] then buf ++ "q=" else buf
  let isFirst := if o.Keyword ≠ "" then false else true
  let buf := if o.Keyword ≠ "" then buf ++ o.Keyword else buf
  let buf := loopTerms l buf isFirst
  if o.SortField ≠ "" then
    ((if buf.length ≠ 0 then buf ++ "&" else buf) ++ ("sort=" ++ o.SortField))
      ++ (if o.Order ≠ "" then "&order=" ++ o.Order else "")
  else buf

/-- Go `options.queryString`, with the canonical (insertion-order) iteration
of the term map. -/
def queryString (o : Options) : String := queryStringList o (vals o)

/-- Spec-side helper: `+`-join of a list of query terms. -/
def joinPlus : List String → String
  | [] => ""
  | [t] => t
  | t :: rest => t ++ "+" ++ joinPlus rest

/-- Spec-side helper: `,`-join of the set `in` sub-flag names. -/
def joinComma : List String → String
  | [] => ""
  | [t] => t
  | t :: rest => t ++ "," ++ joinComma rest

/-- Spec-side helper: the `k:v` rendering of one filter entry. -/
def termStr (p : String × String) : String := p.1 ++ ":" ++ p.2

/-- Spec-side helper: the list of query terms in the `q=` section, the keyword
first (when non-empty) followed by the `k:v` filter terms in iteration order. -/
def qTerms (kw : String) (l : List (String × String)) : List String :=
  (if kw ≠ "" then [kw] else []) ++ l.map termStr

/-- Spec-side helper: the `q=...` section of the query: the `q=` marker
followed by the `+`-joined terms, or the empty string when there is neither a
keyword nor a filter entry. -/
def qbody (kw : String) (l : List (String × String)) : String :=
  if kw ≠ "" ∨ l ≠ [] then "q=" ++ joinPlus (qTerms kw l) else ""

/-- Spec-side helper: `"+" ++ t` for every remaining term, the shape the
term loop produces once something already stands in the buffer. -/
def plusTail : List String → String
  | [] => ""
  | t :: ts => "+" ++ t ++ plusTail ts

/-- Spec-side helper: the sort/order suffix of the query, given the already
written `q=` section `b`: nothing without a sort field; otherwise
`sort=<field>`, preceded by `&` exactly when `b` is non-empty and followed by
`&order=<order>` when an order was supplied. -/
def sortSuffix (o : Options) (b : String) : String :=
  if o.SortField ≠ "" then
    ((if b.length ≠ 0 then "&" else "") ++ ("sort=" ++ o.SortField))
      ++ (if o.Order ≠ "" then "&order=" ++ o.Order else "")
  else ""

/-- Spec-side helper: the comma-joined `in` value determined by the three
location sub-flags, always in the fixed order name, description, readme. -/
def inJoinedFlags (nameF descF readmeF : Bool) : String :=
  joinComma ((if nameF then ["name"] else [])
    ++ (if descF then ["description"] else [])
    ++ (if readmeF then ["readme"] else []))

/-- Spec-side helper: the comma-joined `in` value of an option set. -/
def inJoined (o : Options) : String :=
  inJoinedFlags o.InName o.InDescription o.InReadme

/-- Spec-side helper: the entries contributed by the four filters the source
inserts before the `in` block, in insertion order. -/
def valsHead (o : Options) : List (String × String) :=
  (if o.Created ≠ "" then [("created", o.Created)] else [])
    ++ (if o.Pushed ≠ "" then [("pushed", o.Pushed)] else [])
    ++ (if o.Fork ≠ "" then [("fork", o.Fork)] else [])
    ++ (if o.Forks ≥ 0 then [("forks", toString o.Forks)] else [])

/-- Spec-side helper: the single collapsed `in` entry, when any location
sub-flag is set. -/
def valsIn (o : Options) : List (String × String) :=
  if o.InName ∨ o.InDescription ∨ o.InReadme then [("in", inJoined o)] else []

/-- Spec-side helper: the entries contributed by the filters the source
inserts after the `in` block, in insertion order. -/
def valsTail (o : Options) : List (String × String) :=
  (if o.Language ≠ "" then [("language", o.Language)] else [])
    ++ (if o.License ≠ "" then [("license", o.License)] else [])
    ++ (if o.Org ≠ "" then [("org", o.Org)] else [])
    ++ (if o.Username ≠ "" then [("user", o.Username)] else [])
    ++ (if o.Size > 0 then [("size", toString o.Size)] else [])
    ++ (if o.Stars > 0 then [("stars", toString o.Stars)] else [])
    ++ (if o.Topic ≠ "" then [("topic", o.Topic)] else [])
    ++ (if o.Archived then [("archived", "true")] else [])

/-- Spec-side helper: at least one filter passes its per-field meaningful-value
predicate (non-empty string, set flag, or the integer field's sentinel check). -/
def anyMeaningful (o : Options) : Prop :=
  o.Created ≠ "" ∨ o.Pushed ≠ "" ∨ o.Fork ≠ "" ∨ o.Forks ≥ 0
    ∨ o.InName = true ∨ o.InDescription = true ∨ o.InReadme = true
    ∨ o.Language ≠ "" ∨ o.License ≠ "" ∨ o.Org ≠ "" ∨ o.Username ≠ ""
    ∨ o.Size > 0 ∨ o.Stars > 0 ∨ o.Topic ≠ "" ∨ o.Archived = true

instance (o : Options) : Decidable (anyMeaningful o) := by
  unfold anyMeaningful; infer_instance

/-- Spec-side helper: split a character list at every `'+'`, the way a reader
of the target API's query-term syntax recovers the individual terms of the
`q=` section. -/
def splitPlus : List Char → List (List Char)
  | [] => [[]]
  | c :: rest =>
    match splitPlus rest with
    | [] => [[c]]
    | t :: ts => if c = '+' then [] :: t :: ts else (c :: t) :: ts

/-- Concrete option set used to instantiate the C1 theorem. -/
def sampleKeywordOpts : Options := { Keyword := "hello" }

/-- Concrete option set used to instantiate the C2 theorem. -/
def sampleInOpts : Options := { InName := true, InDescription := true, InReadme := true }

/-- Concrete option set used to instantiate the C3 theorem. -/
def sampleSortOpts : Options := { Stars := 100, SortField := "stars", Order := "desc" }

/-- Concrete option set used to instantiate the C4 theorem. -/
def sampleIntOpts : Options := { Forks := 0, Size := 0, Stars := 5 }

/-- Concrete option set whose language value contains the `+` delimiter,
used to refute the unescapable-syntax part of C5. -/
def samplePlusOpts : Options := { Language := "a+b" }

/-- Concrete option set used to instantiate the C6 theorem. -/
def sampleScenarioOpts : Options := { Keyword := "foo", Language := "Go" }

/-- Concrete option set used to instantiate the C8 theorem. -/
def sampleRenderOpts : Options := {}

/-- Concrete decoded response used to instantiate the C8 theorem. -/
def sampleResponse : Response :=
  ⟨[{ license := "", language := "JavaScript", full_name := "foo/bar", description := "a demo" }]⟩

/-- Concrete option set used to instantiate the C10 theorem. -/
def sampleNoLangOpts : Options := {}

/-- Concrete decoded item with an empty language, used to instantiate the C10
theorem. -/
def sampleNoLangItem : Item :=
  { license := "", language := "", full_name := "foo/bar", description := "a demo" }

theorem append_if {α : Type} (c : Prop) [Decidable c] (l e : List α) :
    (if c then l ++ e else l) = l ++ (if c then e else []) := by
  split <;> simp

theorem mem_ite_singleton {α : Type} (c : Prop) [Decidable c] (x p : α) :
    p ∈ (if c then [x] else []) ↔ c ∧ p = x := by
  split <;> simp_all

theorem ite_singleton_nil {α : Type} (c : Prop) [Decidable c] (x : α) :
    (if c then [x] else []) = [] ↔ ¬c := by
  split <;> simp_all

theorem lookup_none (k : String) (l : List (String × String))
    (h : ∀ p ∈ l, p.1 ≠ k) : l.lookup k = none := by
  induction l with
  | nil => rfl
  | cons a rest ih =>
    obtain ⟨a1, a2⟩ := a
    have ha : (k == a1) = false :=
      beq_eq_false_iff_ne.mpr (Ne.symm (h (a1, a2) (by simp)))
    simp only [List.lookup, ha]
    exact ih (fun p hp => h p (List.mem_cons_of_mem _ hp))

theorem lookup_append_none (k : String) (l1 l2 : List (String × String))
    (h : l1.lookup k = none) : (l1 ++ l2).lookup k = l2.lookup k := by
  induction l1 with
  | nil => simp
  | cons a rest ih =>
    obtain ⟨a1, a2⟩ := a
    cases hka : (k == a1) with
    | true => simp [List.lookup, hka] at h
    | false =>
      simp only [List.lookup, hka] at h
      simp only [List.cons_append, List.lookup, hka]
      exact ih h

theorem replaceIn_keyfree (l : List (String × String)) (x v : String)
    (h : ∀ p ∈ l, p.1 ≠ "in") :
    replaceIn (l ++ [("in", x)]) v = l ++ [("in", v)] := by
  induction l with
  | nil => simp [replaceIn]
  | cons a rest ih =>
    obtain ⟨a1, a2⟩ := a
    have ha : a1 ≠ "in" := h (a1, a2) (by simp)
    simp only [List.cons_append, replaceIn, ha, if_false, List.cons.injEq, true_and, if_neg ha]
    exact ih (fun p hp => h p (List.mem_cons_of_mem _ hp))

theorem setIn_fresh (l : List (String × String)) (v : String)
    (h : ∀ p ∈ l, p.1 ≠ "in") : setIn l v = l ++ [("in", v)] := by
  simp [setIn, lookup_none "in" l h]

theorem setIn_existing (l : List (String × String)) (x v : String)
    (h : ∀ p ∈ l, p.1 ≠ "in") :
    setIn (l ++ [("in", x)]) v = l ++ [("in", x ++ "," ++ v)] := by
  have hl : (l ++ [("in", x)]).lookup "in" = some x := by
    rw [lookup_append_none "in" l _ (lookup_none "in" l h)]
    simp [List.lookup]
  simp [setIn, hl, replaceIn_keyfree l x _ h]

theorem inBlock_eq (nameF descF readmeF : Bool) (l : List (String × String))
    (h : ∀ p ∈ l, p.1 ≠ "in") :
    inBlock nameF descF readmeF l
      = l ++ (if nameF ∨ descF ∨ readmeF
          then [("in", inJoinedFlags nameF descF readmeF)] else []) := by
  cases nameF <;> cases descF <;> cases readmeF <;>
    simp [inBlock, inJoinedFlags, joinComma, setIn_fresh l _ h, setIn_existing l _ _ h,
      String.append_assoc]

theorem valsHead_keys (o : Options) : ∀ p ∈ valsHead o, p.1 ≠ "in" := by
  intro p hp
  simp only [valsHead, List.mem_append, mem_ite_singleton] at hp
  rcases hp with ((h | h) | h) | h <;> rcases h with ⟨-, rfl⟩ <;> simp

theorem valsTail_keys (o : Options) : ∀ p ∈ valsTail o, p.1 ≠ "in" := by
  intro p hp
  simp only [valsTail, List.mem_append, mem_ite_singleton] at hp
  rcases hp with ((((((h | h) | h) | h) | h) | h) | h) | h <;>
    rcases h with ⟨-, rfl⟩ <;> simp

theorem countP_key_zero (k : String) (l : List (String × String))
    (h : ∀ p ∈ l, p.1 ≠ k) : l.countP (fun p => p.1 == k) = 0 :=
  List.countP_eq_zero.mpr (fun a ha => by simpa using h a ha)

theorem vals_decomp (o : Options) :
    vals o = valsHead o ++ valsIn o ++ valsTail o := by
  have step1 : vals o
      = inBlock o.InName o.InDescription o.InReadme (valsHead o) ++ valsTail o := by
    simp only [vals, append_if, List.nil_append]
    simp only [valsHead, valsTail, List.append_assoc]
  rw [step1, inBlock_eq _ _ _ _ (valsHead_keys o)]
  simp [valsIn, inJoined, List.append_assoc]

theorem vals_nil_iff (o : Options) : vals o = [] ↔ ¬ anyMeaningful o := by
  rw [vals_decomp]
  simp only [List.append_eq_nil, ite_singleton_nil, valsHead, valsIn, valsTail,
    anyMeaningful, not_or]
  tauto

theorem str_length_zero (s : String) : s.length = 0 ↔ s = "" := by
  constructor
  · intro h
    apply String.ext
    exact List.length_eq_zero.mp h
  · intro h
    subst h
    rfl

theorem joinPlus_cons (t : String) (ts : List String) :
    joinPlus (t :: ts) = t ++ plusTail ts := by
  induction ts generalizing t with
  | nil => simp [joinPlus, plusTail]
  | cons u us ih => simp [joinPlus, plusTail, ih, String.append_assoc]

theorem loopTerms_false_eq (l : List (String × String)) (buf : String) :
    loopTerms l buf false = buf ++ plusTail (l.map termStr) := by
  induction l generalizing buf with
  | nil => simp [loopTerms, plusTail]
  | cons p rest ih =>
    obtain ⟨k, v⟩ := p
    simp [loopTerms, ih, plusTail, termStr, String.append_assoc]

theorem loopTerms_true_eq (l : List (String × String)) (buf : String) :
    loopTerms l buf true = buf ++ joinPlus (l.map termStr) := by
  cases l with
  | nil => simp [loopTerms, joinPlus]
  | cons p rest =>
    obtain ⟨k, v⟩ := p
    simp [loopTerms, loopTerms_false_eq, joinPlus_cons, termStr, String.append_assoc]

theorem qbody_pos (kw : String) (l : List (String × String)) (h : kw ≠ "" ∨ l ≠ []) :
    qbody kw l = "q=" ++ joinPlus (qTerms kw l) := by
  unfold qbody
  rw [if_pos h]

theorem qbody_neg (kw : String) (l : List (String × String)) (h : ¬(kw ≠ "" ∨ l ≠ [])) :
    qbody kw l = "" := by
  unfold qbody
  rw [if_neg h]

theorem qbody_ne_empty (kw : String) (l : List (String × String)) (h : kw ≠ "" ∨ l ≠ []) :
    qbody kw l ≠ "" := by
  rw [qbody_pos kw l h]
  intro he
  have hlen := congrArg String.length he
  rw [String.length_append] at hlen
  have h2 : ("q=" : String).length = 2 := rfl
  have h0 : ("" : String).length = 0 := rfl
  rw [h2, h0] at hlen
  omega

theorem qbody_nil_iff (kw : String) (l : List (String × String)) :
    qbody kw l = "" ↔ ¬(kw ≠ "" ∨ l ≠ []) := by
  by_cases h : kw ≠ "" ∨ l ≠ []
  · exact iff_of_false (qbody_ne_empty kw l h) (not_not_intro h)
  · exact iff_of_true (qbody_neg kw l h) h

theorem sortPart_eq (o : Options) (b : String) :
    (if o.SortField ≠ "" then
        ((if b.length ≠ 0 then b ++ "&" else b) ++ ("sort=" ++ o.SortField))
          ++ (if o.Order ≠ "" then "&order=" ++ o.Order else "")
      else b)
      = b ++ sortSuffix o b := by
  unfold sortSuffix
  by_cases hs : o.SortField = ""
  · simp [hs]
  · by_cases hb : b.length = 0 <;>
      simp [hs, hb, String.append_assoc, String.empty_append, String.append_empty]

theorem queryStringList_eq (o : Options) (l : List (String × String)) :
    queryStringList o l = qbody o.Keyword l ++ sortSuffix o (qbody o.Keyword l) := by
  rw [← sortPart_eq o (qbody o.Keyword l)]
  by_cases hk : o.Keyword = ""
  · cases l with
    | nil => simp [queryStringList, hk, loopTerms, qbody]
    | cons p rest =>
      simp [queryStringList, hk, loopTerms_true_eq, qbody, qTerms,
        String.empty_append]
  · simp [queryStringList, hk, loopTerms_false_eq, qbody, qTerms, joinPlus_cons,
      String.empty_append, String.append_assoc]

/-- C7: The process exits with status 0 on success, including when the decoded
`items` sequence is empty (zero rows rendered, not an error); it exits with
status 1 after printing a one-line diagnostic to the error stream on an
option-parse failure, a transport failure, or a decode failure, and in each of
these failure cases no result rows are written to standard output. -/
theorem exit_status_paths :
    (∀ (e : String) (fr : FetchResult) (dr : DecodeResult),
        exec (.failed e) fr dr = ⟨1, [], [printErr "error in parsing options" e]⟩)
      ∧ (∀ (o : Options) (e : String) (dr : DecodeResult),
          exec (.ok o) (.failed e) dr = ⟨1, [], [printErr "error in requesting" e]⟩)
      ∧ (∀ (o : Options) (e : String),
          exec (.ok o) .ok (.failed e) = ⟨1, [], [printErr "error in parsing reponse" e]⟩)
      ∧ (∀ (o : Options) (r : Response),
          exec (.ok o) .ok (.ok r) = ⟨0, renderRows o r, []⟩)
      ∧ (∀ (o : Options), exec (.ok o) .ok (.ok ⟨[]⟩) = ⟨0, [], []⟩) :=
  ⟨fun _ _ _ => rfl, fun _ _ _ => rfl, fun _ _ => rfl, fun _ _ => rfl, fun _ => rfl⟩

/-- C8: For every decoded item, the renderer writes one line consisting of the
full name, a column separator, and the description; when the caller did not
supply the language filter, the line is additionally prefixed with the item's
language in brackets passed through the shortening function, which maps
exactly `Emacs Lisp` to `elisp`, `JavaScript` to `JS`, `CoffeeScript` to
`Coffee`, and returns any other string (including the empty string)
unchanged; when the language filter was supplied, the bracket prefix is
omitted. -/
theorem render_row_format :
    (∀ (o : Options) (r : Response), o.Language = "" →
        renderRows o r = r.items.map (fun it =>
          "[" ++ shortenLanguage it.language ++ "]\t" ++ it.full_name ++ "\t" ++ it.description))
      ∧ (∀ (o : Options) (r : Response), o.Language ≠ "" →
          renderRows o r = r.items.map (fun it => it.full_name ++ "\t" ++ it.description))
      ∧ shortenLanguage "Emacs Lisp" = "elisp"
      ∧ shortenLanguage "JavaScript" = "JS"
      ∧ shortenLanguage "CoffeeScript" = "Coffee"
      ∧ shortenLanguage "" = ""
      ∧ (∀ s : String, s ≠ "Emacs Lisp" → s ≠ "JavaScript" → s ≠ "CoffeeScript" →
          shortenLanguage s = s) := by
  refine ⟨?_, ?_, rfl, rfl, rfl, rfl, ?_⟩
  · intro o r h
    simp [renderRows, rowLine, h]
  · intro o r h
    simp [renderRows, rowLine, h, String.empty_append]
  · intro s h1 h2 h3
    unfold shortenLanguage
    split <;> simp_all

/-- Witness for C8: a concrete response rendered without a language filter,
and the shortening function leaving `Go` unchanged. -/
theorem render_row_format_app :
    renderRows sampleRenderOpts sampleResponse
        = sampleResponse.items.map (fun it =>
            "[" ++ shortenLanguage it.language ++ "]\t" ++ it.full_name ++ "\t" ++ it.description)
      ∧ shortenLanguage "Go" = "Go" :=
  ⟨render_row_format.1 sampleRenderOpts sampleResponse rfl,
   render_row_format.2.2.2.2.2.2 "Go" (by decide) (by decide) (by decide)⟩

/-- C9: the claim states the HTTP response body stream is closed on every exit
path; the source never calls `res.Body.Close()`, so the event trace after a
successful GET records the acquisition and no close, on the success path and
on the decode-failure path alike. -/
theorem body_never_closed :
    bodyEvents .ok (.ok ⟨[]⟩) = [.acquireBody]
      ∧ ResourceEvent.closeBody ∉ bodyEvents .ok (.ok ⟨[]⟩)
      ∧ ResourceEvent.closeBody ∉ bodyEvents .ok (.failed "invalid json") := by
  refine ⟨rfl, ?_, ?_⟩ <;> simp [bodyEvents]

/-- C10: when the language filter is not supplied and a decoded item's language
field is the empty string, the rendered row still begins with the literal two
characters `[]` followed by the column separator, rather than the prefix being
omitted for that row. -/
theorem empty_language_bracket_row (o : Options) (it : Item)
    (hL : o.Language = "") (hlang : it.language = "") :
    rowLine o it = ("[]" ++ "\t") ++ it.full_name ++ "\t" ++ it.description := by
  unfold rowLine
  rw [hL, hlang, if_pos rfl]
  rw [show ("[" ++ shortenLanguage "" ++ "]\t" : String) = "[]" ++ "\t" from by decide]

/-- Witness for C10 at a concrete option set and item. -/
theorem empty_language_bracket_row_app :
    rowLine sampleNoLangOpts sampleNoLangItem
      = ("[]" ++ "\t") ++ sampleNoLangItem.full_name ++ "\t" ++ sampleNoLangItem.description :=
  empty_language_bracket_row sampleNoLangOpts sampleNoLangItem rfl rfl

/-- C1: for every combination of options (and every iteration order `l` of the
term map, with the sort/order fields inside their flag-declared choice sets),
the query builder's output starts with the `q=` marker — its one occurrence as
a prefix — if and only if the keyword is non-empty or at least one filter is
meaningful, and when that condition fails the output contains no `q=` at all,
anywhere. -/
theorem q_marker_iff_any_term (o : Options) (l : List (String × String))
    (hl : l.Perm (vals o))
    (hs : o.SortField ∈ (["", "stars", "forks", "updated"] : List String))
    (ho : o.Order ∈ (["", "asc", "desc"] : List String)) :
    (("q=".data <+: (queryStringList o l).data) ↔ (o.Keyword ≠ "" ∨ anyMeaningful o))
      ∧ (¬(o.Keyword ≠ "" ∨ anyMeaningful o) →
          ¬ ("q=".data <:+: (queryStringList o l).data)) := by
  by_cases hc : o.Keyword ≠ "" ∨ anyMeaningful o
  · have hcond : o.Keyword ≠ "" ∨ l ≠ [] := by
      rcases hc with h | h
      · exact Or.inl h
      · refine Or.inr (fun hnil => ?_)
        have hv : vals o = [] := List.Perm.eq_nil ((hnil ▸ hl).symm)
        exact ((vals_nil_iff o).mp hv) h
    have hpfx : "q=".data <+: (queryStringList o l).data := by
      rw [queryStringList_eq, qbody_pos _ _ hcond, String.data_append,
        String.data_append, List.append_assoc]
      exact List.prefix_append _ _
    exact ⟨iff_of_true hpfx hc, fun hn => absurd hc hn⟩
  · have hkw : o.Keyword = "" := not_ne_iff.mp (fun h => hc (Or.inl h))
    have hm : ¬ anyMeaningful o := fun h => hc (Or.inr h)
    have hlnil : l = [] := List.Perm.eq_nil (((vals_nil_iff o).mpr hm) ▸ hl)
    have hq : queryStringList o l = sortSuffix o "" := by
      rw [queryStringList_eq, qbody_neg _ _ (by simp [hkw, hlnil]), String.empty_append]
    rw [hq]
    have hinf : ¬ ("q=".data <:+: (sortSuffix o "").data) := by
      simp only [List.mem_cons, List.not_mem_nil, or_false] at hs ho
      rcases hs with h1 | h1 | h1 | h1 <;> rcases ho with h2 | h2 | h2 <;>
        simp only [sortSuffix, h1, h2] <;> decide
    have hnp : ¬ ("q=".data <+: (sortSuffix o "").data) := by
      intro hp
      obtain ⟨t, ht⟩ := hp
      exact hinf ⟨[], t, by simpa using ht⟩
    exact ⟨iff_of_false hnp hc, fun _ => hinf⟩

/-- Witness for C1 at a concrete option set carrying only a keyword. -/
theorem q_marker_iff_any_term_app :
    (("q=".data <+: (queryStringList sampleKeywordOpts (vals sampleKeywordOpts)).data)
        ↔ (sampleKeywordOpts.Keyword ≠ "" ∨ anyMeaningful sampleKeywordOpts))
      ∧ (¬(sampleKeywordOpts.Keyword ≠ "" ∨ anyMeaningful sampleKeywordOpts) →
          ¬ ("q=".data <:+: (queryStringList sampleKeywordOpts (vals sampleKeywordOpts)).data)) :=
  q_marker_iff_any_term sampleKeywordOpts (vals sampleKeywordOpts) (List.Perm.refl _)
    (by decide) (by decide)

/-- C2: for every setting of the three location flags, the term map contains
no `in` entry when none is set, and otherwise exactly one `in` entry whose
value is the comma-join of the set sub-flags in the fixed order name,
description, readme — independent of any flag-setting order, since the flags
are independent fields and the joined value is determined by them alone. -/
theorem in_term_single_join (o : Options) (l : List (String × String))
    (hl : l.Perm (vals o)) :
    ((o.InName = false ∧ o.InDescription = false ∧ o.InReadme = false) →
        ∀ v, ("in", v) ∉ l)
      ∧ ((o.InName = true ∨ o.InDescription = true ∨ o.InReadme = true) →
          l.countP (fun p => p.1 == "in") = 1 ∧ ("in", inJoined o) ∈ l) := by
  constructor
  · rintro ⟨h1, h2, h3⟩ v hv
    have hv2 : ("in", v) ∈ vals o := hl.mem_iff.mp hv
    rw [vals_decomp] at hv2
    simp [valsHead, valsIn, valsTail, mem_ite_singleton, h1, h2, h3,
      List.mem_append] at hv2
  · intro hset
    constructor
    · rw [hl.countP_eq, vals_decomp, List.countP_append, List.countP_append,
        countP_key_zero "in" _ (valsHead_keys o), countP_key_zero "in" _ (valsTail_keys o)]
      simp [valsIn, if_pos hset]
    · apply hl.mem_iff.mpr
      rw [vals_decomp]
      simp [valsIn, if_pos hset, List.mem_append]

/-- Witness for C2: all three location flags set yield one `in` entry whose
value is `name,description,readme`. -/
theorem in_term_single_join_app :
    ((vals sampleInOpts).countP (fun p => p.1 == "in") = 1
        ∧ ("in", inJoined sampleInOpts) ∈ vals sampleInOpts)
      ∧ inJoined sampleInOpts = "name,description,readme" :=
  ⟨(in_term_single_join sampleInOpts (vals sampleInOpts) (List.Perm.refl _)).2 (by decide),
   by decide⟩

/-- C3: for every option set (and iteration order): without a sort field the
builder appends nothing after the `q=` section — in particular no `order=`
parameter is ever emitted, even when an order was supplied; with a sort field
the output is the `q=` section followed by `sort=<field>` (and `&order=<order>`
when an order was supplied), the sort segment preceded by `&` exactly when a
`q=...` segment was emitted — the `q=` section is empty exactly when neither a
keyword nor a meaningful filter exists — and the output ends with the sort
segment. -/
theorem sort_order_emission (o : Options) (l : List (String × String))
    (hl : l.Perm (vals o)) :
    (o.SortField = "" → queryStringList o l = qbody o.Keyword l)
      ∧ (o.SortField ≠ "" →
          queryStringList o l
            = qbody o.Keyword l
                ++ ((if qbody o.Keyword l = "" then "" else "&") ++ ("sort=" ++ o.SortField))
                ++ (if o.Order ≠ "" then "&order=" ++ o.Order else ""))
      ∧ (o.SortField ≠ "" →
          (("sort=" ++ o.SortField) ++ (if o.Order ≠ "" then "&order=" ++ o.Order else "")).data
            <:+ (queryStringList o l).data)
      ∧ (qbody o.Keyword l = "" ↔ ¬(o.Keyword ≠ "" ∨ anyMeaningful o)) := by
  have hamp : (if (qbody o.Keyword l).length ≠ 0 then ("&" : String) else "")
      = (if qbody o.Keyword l = "" then "" else "&") := by
    by_cases hq : qbody o.Keyword l = ""
    · rw [hq]
      simp
    · have h1 : (qbody o.Keyword l).length ≠ 0 := fun h0 => hq ((str_length_zero _).mp h0)
      simp [hq, h1]
  refine ⟨?_, ?_, ?_, ?_⟩
  · intro hsf
    rw [queryStringList_eq]
    simp [sortSuffix, hsf, String.append_empty]
  · intro hsf
    rw [queryStringList_eq]
    unfold sortSuffix
    rw [if_pos hsf, hamp]
    simp [String.append_assoc]
  · intro hsf
    rw [queryStringList_eq]
    unfold sortSuffix
    rw [if_pos hsf]
    rw [show ∀ a b c d : String, a ++ ((b ++ c) ++ d) = (a ++ b) ++ (c ++ d) from
      fun a b c d => by simp [String.append_assoc]]
    rw [String.data_append]
    exact List.suffix_append _ _
  · rw [qbody_nil_iff]
    have h2 : l ≠ [] ↔ anyMeaningful o := by
      constructor
      · intro hne
        by_contra hm
        exact hne (List.Perm.eq_nil (((vals_nil_iff o).mpr hm) ▸ hl))
      · intro hm hnil
        exact ((vals_nil_iff o).mp (List.Perm.eq_nil ((hnil ▸ hl).symm))) hm
    rw [h2]

/-- Witness for C3 at a concrete option set with stars, sort and order set;
the rendered query is exactly `q=stars:100&sort=stars&order=desc`. -/
theorem sort_order_emission_app :
    ((sampleSortOpts.SortField = ""
          → queryStringList sampleSortOpts (vals sampleSortOpts)
              = qbody sampleSortOpts.Keyword (vals sampleSortOpts))
        ∧ (sampleSortOpts.SortField ≠ "" →
            queryStringList sampleSortOpts (vals sampleSortOpts)
              = qbody sampleSortOpts.Keyword (vals sampleSortOpts)
                  ++ ((if qbody sampleSortOpts.Keyword (vals sampleSortOpts) = "" then "" else "&")
                      ++ ("sort=" ++ sampleSortOpts.SortField))
                  ++ (if sampleSortOpts.Order ≠ "" then "&order=" ++ sampleSortOpts.Order else ""))
        ∧ (sampleSortOpts.SortField ≠ "" →
            (("sort=" ++ sampleSortOpts.SortField)
                ++ (if sampleSortOpts.Order ≠ "" then "&order=" ++ sampleSortOpts.Order else "")).data
              <:+ (queryStringList sampleSortOpts (vals sampleSortOpts)).data)
        ∧ (qbody sampleSortOpts.Keyword (vals sampleSortOpts) = ""
            ↔ ¬(sampleSortOpts.Keyword ≠ "" ∨ anyMeaningful sampleSortOpts)))
      ∧ queryString sampleSortOpts = "q=stars:100&sort=stars&order=desc" :=
  ⟨sort_order_emission sampleSortOpts (vals sampleSortOpts) (List.Perm.refl _), by decide⟩

/-- C4: for every option set (and iteration order), the term map contains a
`size` entry iff the size value is positive and a `stars` entry iff the stars
value is positive (so 0 emits no term for either), while it contains a `forks`
entry iff the forks value is non-negative (so forks 0 is emitted and only a
negative forks value is treated as absent). -/
theorem int_sentinel_terms (o : Options) (l : List (String × String))
    (hl : l.Perm (vals o)) :
    ((∃ v, ("size", v) ∈ l) ↔ 0 < o.Size)
      ∧ ((∃ v, ("stars", v) ∈ l) ↔ 0 < o.Stars)
      ∧ ((∃ v, ("forks", v) ∈ l) ↔ 0 ≤ o.Forks) := by
  refine ⟨?_, ?_, ?_⟩ <;>
    · simp only [hl.mem_iff]
      rw [vals_decomp]
      simp [valsHead, valsIn, valsTail, mem_ite_singleton, List.mem_append]

/-- Witness for C4: forks 0 is emitted, size 0 is not, stars 5 is. -/
theorem int_sentinel_terms_app :
    ((∃ v, ("size", v) ∈ vals sampleIntOpts) ↔ 0 < sampleIntOpts.Size)
      ∧ ((∃ v, ("stars", v) ∈ vals sampleIntOpts) ↔ 0 < sampleIntOpts.Stars)
      ∧ ((∃ v, ("forks", v) ∈ vals sampleIntOpts) ↔ 0 ≤ sampleIntOpts.Forks) :=
  int_sentinel_terms sampleIntOpts (vals sampleIntOpts) (List.Perm.refl _)

/-- C5 counterexample: a supplied value CAN break the query-term syntax.  With
the language filter set to `a+b` the builder emits `q=language:a+b`, and
splitting the `q=` section at the `+` delimiters does not recover the intended
term list (it yields `language:a` and `b` instead of `language:a+b`): the
output is not an escaped encoding of the term multiset. -/
theorem plus_value_breaks_terms :
    queryString samplePlusOpts = "q=language:a+b"
      ∧ splitPlus ((queryString samplePlusOpts).data.drop 2)
          ≠ (qTerms samplePlusOpts.Keyword (vals samplePlusOpts)).map String.data := by
  refine ⟨by decide, by decide⟩

/-- C5 (amended): every meaningful filter appears as a `key:value` term,
terms are joined by `+` after the `q=` marker, and sort/order appear as
`&`-separated parameters appended to the `q=` section — but no escaping is
applied to supplied values, so a value containing a delimiter can break the
term syntax (an accepted limitation). -/
theorem query_structure_unescaped (o : Options) (l : List (String × String))
    (hl : l.Perm (vals o)) :
    queryStringList o l = qbody o.Keyword l ++ sortSuffix o (qbody o.Keyword l)
      ∧ qbody o.Keyword l
          = (if o.Keyword ≠ "" ∨ l ≠ [] then "q=" ++ joinPlus (qTerms o.Keyword l) else "")
      ∧ (∀ p ∈ l, termStr p ∈ qTerms o.Keyword l) := by
  refine ⟨queryStringList_eq o l, rfl, ?_⟩
  intro p hp
  simp only [qTerms, List.mem_append, List.mem_map]
  exact Or.inr ⟨p, hp, rfl⟩

/-- Witness for C5 (amended) at the same concrete option set whose language
value contains a `+`. -/
theorem query_structure_unescaped_app :
    queryStringList samplePlusOpts (vals samplePlusOpts)
        = qbody samplePlusOpts.Keyword (vals samplePlusOpts)
            ++ sortSuffix samplePlusOpts (qbody samplePlusOpts.Keyword (vals samplePlusOpts))
      ∧ qbody samplePlusOpts.Keyword (vals samplePlusOpts)
          = (if samplePlusOpts.Keyword ≠ "" ∨ vals samplePlusOpts ≠ []
              then "q=" ++ joinPlus (qTerms samplePlusOpts.Keyword (vals samplePlusOpts)) else "")
      ∧ (∀ p ∈ vals samplePlusOpts, termStr p ∈ qTerms samplePlusOpts.Keyword (vals samplePlusOpts)) :=
  query_structure_unescaped samplePlusOpts (vals samplePlusOpts) (List.Perm.refl _)

/-- C6: for every option set with a non-empty keyword (and iteration order),
the keyword appears verbatim immediately after the `q=` marker as the first
query term, before every filter term, and each filter term is joined to the
previous term by a single literal `+`. -/
theorem keyword_first_verbatim (o : Options) (l : List (String × String))
    (hl : l.Perm (vals o)) (hk : o.Keyword ≠ "") :
    qTerms o.Keyword l = o.Keyword :: l.map termStr
      ∧ queryStringList o l
          = ("q=" ++ o.Keyword ++ plusTail (l.map termStr))
              ++ sortSuffix o (qbody o.Keyword l) := by
  constructor
  · simp [qTerms, hk]
  · rw [queryStringList_eq, qbody_pos _ _ (Or.inl hk)]
    congr 1
    simp [qTerms, hk, joinPlus_cons, String.append_assoc]

/-- Witness for C6: keyword `foo` and language `Go` render as
`q=foo+language:Go`, the keyword first. -/
theorem keyword_first_verbatim_app :
    (qTerms sampleScenarioOpts.Keyword (vals sampleScenarioOpts)
          = sampleScenarioOpts.Keyword :: (vals sampleScenarioOpts).map termStr
        ∧ queryStringList sampleScenarioOpts (vals sampleScenarioOpts)
            = ("q=" ++ sampleScenarioOpts.Keyword
                  ++ plusTail ((vals sampleScenarioOpts).map termStr))
                ++ sortSuffix sampleScenarioOpts
                    (qbody sampleScenarioOpts.Keyword (vals sampleScenarioOpts)))
      ∧ queryString sampleScenarioOpts = "q=foo+language:Go" :=
  ⟨keyword_first_verbatim sampleScenarioOpts (vals sampleScenarioOpts)
      (List.Perm.refl _) (by decide),
   by decide⟩

end GitSearch
